import Mathlib

/-!
Verification of the IT8951 SPI transport layer (`IT8951/spi.pyx`).

The driver talks to the IT8951 e-paper controller over SPI plus three
control lines (ready `HRDY`, chip-select `CS`, reset `RESET`).  We embed
every externally observable action of the driver as an `Event`, model the
bcm2835 peripheral's received bytes as an oracle `recv : Nat → Nat`
(indexed by the order of `bcm2835_spi_transfer` calls within one driver
call; the C function returns a `uint8_t`, hence the `% 256` at each use),
and translate each method of class `SPI` into a function returning the
emitted event trace (and result) in an `Except` monad.  Python exceptions
(`AssertionError` on a missing line, `OverflowError` from
`array.array('H', ...)` conversion, `IndexError` from indexing an empty
result) become `Err` values; an `Err` result carries no trace, which
matches the Python semantics that the raising statement precedes every
hardware access in the method body.

The busy-wait loop inside `wait_ready` is additionally modelled at the
poll level (`wait_ready_loop`), with fuel standing in for the unbounded
iteration: `none` for a given fuel means the loop has not yet returned
after that many polls, and divergence is `none` for every fuel.  In the
trace-level model a completed `wait_ready` is abstracted as the single
event `Event.wait`, which is sound because (as proved below) the loop
performs nothing but reads of the `HRDY` pin.
-/

/-- Observable actions of the driver.  `gpioWrite`/`gpioRead` are
`bcm2835_gpio_write`/`bcm2835_gpio_lev` (level `false` = `LOW`,
`true` = `HIGH`), `xfer b` is `bcm2835_spi_transfer` sending byte `b`,
`xfern buf` is `bcm2835_spi_transfern` handing over the byte buffer
`buf`, `sleepMs` is `time.sleep`, and `wait` marks a completed
`wait_ready()` call (whose internals are modelled by
`wait_ready_loop`). -/
inductive Event where
  | wait
  | gpioWrite (pin : Nat) (level : Bool)
  | gpioRead (pin : Nat) (level : Bool)
  | sleepMs (ms : Nat)
  | xfer (b : Nat)
  | xfern (buf : List Nat)
deriving DecidableEq, Repr

/-- Failures of the Python methods: `configError` is the `AssertionError`
raised by `assert self.X is not None` (the spec's `ConfigurationError`),
`overflowError` is the `OverflowError` raised by `array.array('H', ary)`
on an element outside `[0, 65535]`, and `indexError` is the `IndexError`
raised by `read_data(1)[0]` on an empty result (the spec's
`EmptyResponseError`). -/
inductive Err where
  | configError
  | overflowError
  | indexError
deriving DecidableEq, Repr

/-- The pin assignment fixed at construction (`__init__`): each role is
independently optional (`None` in Python). -/
structure Config where
  HRDY : Option Nat
  CS : Option Nat
  RESET : Option Nat
deriving DecidableEq, Repr

namespace SPI

/-- `SPI.reset`: `assert self.RESET is not None`, drive the reset pin
`LOW`, `time.sleep(0.1)` (100 ms), drive it `HIGH`. -/
def reset (cfg : Config) : Except Err (List Event) :=
  match cfg.RESET with
  | none => .error .configError
  | some r => .ok [Event.gpioWrite r false, Event.sleepMs 100, Event.gpioWrite r true]

/-- `SPI._write_cs`: `assert self.CS is not None`, then write `LOW` to
the chip-select pin when the device should listen, `HIGH` otherwise. -/
def write_cs (cfg : Config) (should_listen : Bool) : Except Err (List Event) :=
  match cfg.CS with
  | none => .error .configError
  | some c => .ok [Event.gpioWrite c (if should_listen then false else true)]

/-- `SPI.wait_ready` at the trace level: `assert self.HRDY is not None`,
then the busy-wait loop, abstracted as the single event `Event.wait`
(see `wait_ready_loop` for the loop itself). -/
def wait_ready (cfg : Config) : Except Err (List Event) :=
  match cfg.HRDY with
  | none => .error .configError
  | some _ => .ok [Event.wait]

/-- The loop body of `SPI.wait_ready`
(`while not bcm2835_gpio_lev(self.HRDY): pass`) at the poll level.
`ready k` is the level returned by the `k`-th poll of the pin; `fuel`
bounds the number of iterations we unfold, with `none` meaning the loop
is still spinning after `fuel` polls.  The returned trace records every
poll and its observed level. -/
def wait_ready_loop (pin : Nat) (ready : Nat → Bool) : Nat → Nat → Option (List Event)
  | _, 0 => none
  | k, fuel + 1 =>
    if ready k then some [Event.gpioRead pin true]
    else Option.map (fun es => Event.gpioRead pin false :: es)
      (wait_ready_loop pin ready (k + 1) fuel)

/-- `SPI.wait_ready` at the poll level: the assertion on the line
assignment followed by the busy-wait loop (see `wait_ready_loop`). -/
def wait_ready_run (cfg : Config) (ready : Nat → Bool) (fuel : Nat) :
    Except Err (Option (List Event)) :=
  match cfg.HRDY with
  | none => .error .configError
  | some pin => .ok (wait_ready_loop pin ready 0 fuel)

/-- `array.array('H', ary)`: convert a Python list of ints to unsigned
16-bit values, raising `OverflowError` at the first element outside
`[0, 65535]`.  This conversion is the first statement of `SPI.write`,
before any hardware access. -/
def toUShort : List Int → Except Err (List Nat)
  | [] => .ok []
  | x :: xs =>
    if 0 ≤ x ∧ x ≤ 65535 then
      match toUShort xs with
      | .ok rest => .ok (x.toNat :: rest)
      | .error e => .error e
    else .error .overflowError

/-- The word-read loop of `SPI.read`:
`crtn[i] = transfer(0)<<8; crtn[i] |= transfer(0)`.  `base` is the index
(within the call's sequence of `bcm2835_spi_transfer` invocations) of the
next transfer; each of the `n` words consumes two transfers of the zero
byte and assembles the two received bytes most-significant first. -/
def read_words (recv : Nat → Nat) (base : Nat) : Nat → List Event × List Nat
  | 0 => ([], [])
  | n + 1 =>
    let w := ((recv base % 256) <<< 8) ||| (recv (base + 1) % 256)
    let rest := read_words recv (base + 2) n
    (Event.xfer 0 :: Event.xfer 0 :: rest.1, w :: rest.2)

/-- The word-write loop of `SPI.write`:
`transfer(buf[i]>>8); transfer(buf[i])` for each 16-bit word, high byte
first (each argument truncated to `uint8_t` at the C boundary). -/
def write_words : List Nat → List Event
  | [] => []
  | w :: rest => Event.xfer ((w >>> 8) % 256) :: Event.xfer (w % 256) :: write_words rest

/-- `SPI.read(preamble, count)`: wait_ready, assert chip-select, send the
preamble high byte then low byte, wait_ready, send two dummy zero bytes,
wait_ready, read `count` words (two zero-byte transfers each), deassert
chip-select, return the words.  `recv k` is the byte received on the
`k`-th transfer of this call (transfers 0-1 carry the preamble, 2-3 the
dummy bytes, so word `i` sees transfers `4+2i` and `5+2i`). -/
def read (cfg : Config) (recv : Nat → Nat) (preamble count : Nat) :
    Except Err (List Event × List Nat) := do
  let w1 ← wait_ready cfg
  let cOn ← write_cs cfg true
  let pre := [Event.xfer ((preamble >>> 8) % 256), Event.xfer (preamble % 256)]
  let w2 ← wait_ready cfg
  let dummy := [Event.xfer 0, Event.xfer 0]
  let w3 ← wait_ready cfg
  let words := read_words recv 4 count
  let cOff ← write_cs cfg false
  .ok (w1 ++ cOn ++ pre ++ w2 ++ dummy ++ w3 ++ words.1 ++ cOff, words.2)

/-- `SPI.write(preamble, ary)`: convert `ary` to unsigned shorts (the
first statement, before any hardware access), wait_ready, assert
chip-select, send the preamble high byte then low byte, wait_ready, send
each word high byte first in input order, deassert chip-select. -/
def write (cfg : Config) (preamble : Nat) (ary : List Int) : Except Err (List Event) := do
  let buf ← toUShort ary
  let w1 ← wait_ready cfg
  let cOn ← write_cs cfg true
  let pre := [Event.xfer ((preamble >>> 8) % 256), Event.xfer (preamble % 256)]
  let w2 ← wait_ready cfg
  let cOff ← write_cs cfg false
  .ok (w1 ++ cOn ++ pre ++ w2 ++ write_words buf ++ cOff)

/-- `SPI.write_pixels(pixbuf)`: preamble `0x0000`, wait_ready, assert
chip-select, send the preamble bytes, wait_ready, hand the whole byte
buffer to `bcm2835_spi_transfern` in one call, deassert chip-select.
`pixbuf` is the byte buffer as passed to the C `char*` parameter. -/
def write_pixels (cfg : Config) (pixbuf : List Nat) : Except Err (List Event) := do
  let preamble := 0x0000
  let w1 ← wait_ready cfg
  let cOn ← write_cs cfg true
  let pre := [Event.xfer ((preamble >>> 8) % 256), Event.xfer (preamble % 256)]
  let w2 ← wait_ready cfg
  let cOff ← write_cs cfg false
  .ok (w1 ++ cOn ++ pre ++ w2 ++ [Event.xfern pixbuf] ++ cOff)

/-- `SPI.write_data(ary)`: `self.write(0x0000, ary)`. -/
def write_data (cfg : Config) (ary : List Int) : Except Err (List Event) :=
  write cfg 0x0000 ary

/-- The argument loop of `SPI.write_cmd`:
`for arg in args: self.write_data([arg])`. -/
def write_args (cfg : Config) : List Int → Except Err (List Event)
  | [] => .ok []
  | a :: rest => do
    let e ← write_data cfg [a]
    let es ← write_args cfg rest
    .ok (e ++ es)

/-- `SPI.write_cmd(cmd, *args)`: `self.write(0x6000, [cmd])`, then each
argument individually via `self.write_data([arg])`. -/
def write_cmd (cfg : Config) (cmd : Int) (args : List Int) : Except Err (List Event) := do
  let e ← write cfg 0x6000 [cmd]
  let es ← write_args cfg args
  .ok (e ++ es)

/-- Spec-side composition for the `write_cmd` refinement claim: write
`[code]` under preamble `0x6000`, then write each `[arg]` under preamble
`0x0000`, each as its own transfer. -/
def write_cmd_spec (cfg : Config) (cmd : Int) (args : List Int) : Except Err (List Event) := do
  let e ← write cfg 0x6000 [cmd]
  let es ← args.mapM (fun a => write cfg 0x0000 [a])
  .ok (e ++ es.flatten)

/-- `SPI.read_data(n)`: `self.read(0x1000, n)`. -/
def read_data (cfg : Config) (recv : Nat → Nat) (n : Nat) :
    Except Err (List Event × List Nat) :=
  read cfg recv 0x1000 n

/-- `SPI.read_int()`: `self.read_data(1)[0]`; indexing an empty result
raises `IndexError`. -/
def read_int (cfg : Config) (recv : Nat → Nat) : Except Err (List Event × Nat) := do
  let r ← read_data cfg recv 1
  match r.2 with
  | [] => .error .indexError
  | w :: _ => .ok (r.1, w)

/-- Modelled from the spec: the packing of 16-bit pixel words into the
byte buffer handed to `write_pixels`, most-significant byte first, done
by callers outside this source file ("the bulk payload bytes equal the
packed big-endian encoding of the input words in order"). -/
def packBE (words : List Nat) : List Nat :=
  words.flatMap (fun w => [(w >>> 8) % 256, w % 256])

/-- An event that moves bytes on the SPI bus. -/
def isBusEvent : Event → Bool
  | .xfer _ => true
  | .xfern _ => true
  | _ => false

/-- A write to the chip-select pin. -/
def isCsWrite (c : Nat) : Event → Bool
  | .gpioWrite p _ => p == c
  | _ => false

/-- A bulk transfer call. -/
def isBulk : Event → Bool
  | .xfern _ => true
  | _ => false

/-- The trace consists of one chip-select session: a prefix with no bus
traffic and no chip-select writes, one assert (`LOW`), a body with no
further chip-select writes, and a final deassert (`HIGH`). -/
def csFramed (c : Nat) (es : List Event) : Prop :=
  ∃ a b, es = a ++ Event.gpioWrite c false :: (b ++ [Event.gpioWrite c true]) ∧
    (∀ e ∈ a, isBusEvent e = false ∧ isCsWrite c e = false) ∧
    (∀ e ∈ b, isCsWrite c e = false)

/-- Every event of the trace touches only pin `r` (or is a sleep). -/
def touchesOnlyPin (r : Nat) (es : List Event) : Bool :=
  es.all (fun e => match e with
    | Event.gpioWrite p _ => p == r
    | Event.sleepMs _ => true
    | _ => false)

/-- Every event of the trace is a read of pin `p`. -/
def pollsOnly (p : Nat) (es : List Event) : Bool :=
  es.all (fun e => match e with
    | Event.gpioRead q _ => q == p
    | _ => false)

/-! ### Helper lemmas -/

lemma read_words_eq (recv : Nat → Nat) :
    ∀ n base, read_words recv base n =
      ((List.range n).flatMap (fun _ => [Event.xfer 0, Event.xfer 0]),
       (List.range n).map
         (fun i => ((recv (base + 2 * i)) % 256) <<< 8 ||| (recv (base + 2 * i + 1) % 256))) := by
  intro n
  induction n with
  | zero => intro base; simp [read_words]
  | succ n ih =>
    intro base
    rw [read_words, ih (base + 2), List.range_succ_eq_map]
    refine Prod.ext ?_ ?_
    · simp [List.flatMap_cons, List.flatMap_map]
    · simp only [List.map_cons, List.map_map]
      refine List.cons_eq_cons.2 ⟨by simp, ?_⟩

      exact List.map_congr_left fun i _ => by
        have h1 : base + 2 + 2 * i = base + 2 * (Nat.succ i) := by omega
        have h2 : base + 2 + 2 * i + 1 = base + 2 * (Nat.succ i) + 1 := by omega
        simp [Function.comp, h1, h2]

lemma toUShort_ok (ary : List Int) (h : ∀ a ∈ ary, 0 ≤ a ∧ a ≤ 65535) :
    toUShort ary = .ok (ary.map Int.toNat) := by
  induction ary with
  | nil => rfl
  | cons x xs ih =>
    have hx : 0 ≤ x ∧ x ≤ 65535 := h x (by simp)
    rw [toUShort, if_pos hx, ih (fun a ha => h a (by simp [ha]))]
    simp

lemma toUShort_err (ary : List Int) (h : ¬ ∀ a ∈ ary, 0 ≤ a ∧ a ≤ 65535) :
    toUShort ary = .error .overflowError := by
  induction ary with
  | nil => exact absurd (by simp) h
  | cons x xs ih =>
    by_cases hx : 0 ≤ x ∧ x ≤ 65535
    · have hxs : ¬ ∀ a ∈ xs, 0 ≤ a ∧ a ≤ 65535 := by
        intro hall
        exact h (by
          intro a ha
          rcases List.mem_cons.1 ha with rfl | ha2
          · exact hx
          · exact hall a ha2)
      rw [toUShort, if_pos hx, ih hxs]
    · rw [toUShort, if_neg hx]

lemma write_words_eq (buf : List Nat) (h : ∀ w ∈ buf, w ≤ 65535) :
    write_words buf =
      buf.flatMap (fun w => [Event.xfer (w >>> 8), Event.xfer (w % 256)]) := by
  induction buf with
  | nil => rfl
  | cons w ws ih =>
    have hw : w ≤ 65535 := h w (by simp)
    have hsm : (w >>> 8) % 256 = w >>> 8 := by
      have : w >>> 8 < 256 := by
        rw [Nat.shiftRight_eq_div_pow]
        omega
      exact Nat.mod_eq_of_lt this
    simp [write_words, hsm, ih (fun a ha => h a (by simp [ha]))]

lemma read_eq (hr c : Nat) (rst : Option Nat) (recv : Nat → Nat) (preamble n : Nat) :
    read ⟨some hr, some c, rst⟩ recv preamble n =
      .ok (Event.wait :: Event.gpioWrite c false ::
             Event.xfer ((preamble >>> 8) % 256) :: Event.xfer (preamble % 256) ::
             Event.wait :: Event.xfer 0 :: Event.xfer 0 :: Event.wait ::
             ((List.range n).flatMap (fun _ => [Event.xfer 0, Event.xfer 0]) ++
              [Event.gpioWrite c true]),
           (List.range n).map
             (fun i => ((recv (4 + 2 * i)) % 256) <<< 8 ||| (recv (5 + 2 * i) % 256))) := by
  have harith : ∀ i : Nat, 4 + 2 * i + 1 = 5 + 2 * i := fun i => by omega
  simp [read, wait_ready, write_cs, read_words_eq recv n 4, bind, Except.bind, harith]

lemma write_eq (hr c : Nat) (rst : Option Nat) (preamble : Nat) (ary : List Int)
    (h : ∀ a ∈ ary, 0 ≤ a ∧ a ≤ 65535) :
    write ⟨some hr, some c, rst⟩ preamble ary =
      .ok (Event.wait :: Event.gpioWrite c false ::
             Event.xfer ((preamble >>> 8) % 256) :: Event.xfer (preamble % 256) ::
             Event.wait ::
             (ary.flatMap
                (fun a => [Event.xfer (a.toNat >>> 8), Event.xfer (a.toNat % 256)]) ++
              [Event.gpioWrite c true])) := by
  have hb : ∀ w ∈ ary.map Int.toNat, w ≤ 65535 := by
    intro w hw
    simp only [List.mem_map] at hw
    obtain ⟨a, ha, rfl⟩ := hw
    have := h a ha
    omega
  simp [write, toUShort_ok ary h, wait_ready, write_cs, write_words_eq _ hb,
    bind, Except.bind, List.flatMap_map, Function.comp]

lemma write_pixels_eq (hr c : Nat) (rst : Option Nat) (pixbuf : List Nat) :
    write_pixels ⟨some hr, some c, rst⟩ pixbuf =
      .ok [Event.wait, Event.gpioWrite c false, Event.xfer 0, Event.xfer 0,
           Event.wait, Event.xfern pixbuf, Event.gpioWrite c true] := by
  simp [write_pixels, wait_ready, write_cs, bind, Except.bind]

lemma wait_ready_loop_terminates (pin : Nat) (ready : Nat → Bool) :
    ∀ N k fuel, (∀ j, j < N → ready (k + j) = false) → ready (k + N) = true → N < fuel →
      wait_ready_loop pin ready k fuel =
        some (List.replicate N (Event.gpioRead pin false) ++ [Event.gpioRead pin true]) := by
  intro N
  induction N with
  | zero =>
    intro k fuel _ hN hfuel
    match fuel, hfuel with
    | f + 1, _ =>
      rw [wait_ready_loop, if_pos (by simpa using hN)]
      simp
  | succ N ih =>
    intro k fuel hlow hN hfuel
    match fuel, hfuel with
    | f + 1, hfuel =>
      have h0 : ready k = false := by simpa using hlow 0 (Nat.succ_pos N)
      rw [wait_ready_loop, if_neg (by simp [h0]),
        ih (k + 1) f (fun j hj => by
            have := hlow (j + 1) (by omega)
            simpa [Nat.add_assoc, Nat.add_comm 1 j] using this)
          (by
            have : k + 1 + N = k + (N + 1) := by omega
            rw [this]; exact hN)
          (by omega)]
      simp [List.replicate_succ]

lemma wait_ready_loop_diverges (pin : Nat) (ready : Nat → Bool)
    (h : ∀ k, ready k = false) :
    ∀ fuel k, wait_ready_loop pin ready k fuel = none := by
  intro fuel
  induction fuel with
  | zero => intro k; rfl
  | succ f ih =>
    intro k
    rw [wait_ready_loop, if_neg (by simp [h k]), ih (k + 1)]
    rfl

lemma mem_dummy_bytes (n : Nat) :
    ∀ e ∈ (List.range n).flatMap (fun _ => [Event.xfer 0, Event.xfer 0]),
      e = Event.xfer 0 := by
  intro e he
  simp only [List.mem_flatMap, List.mem_range, List.mem_cons, List.not_mem_nil,
    or_false] at he
  obtain ⟨i, _, h | h⟩ := he <;> exact h

lemma read_trace_framed (c : Nat) (preamble n : Nat) :
    csFramed c (Event.wait :: Event.gpioWrite c false ::
      Event.xfer ((preamble >>> 8) % 256) :: Event.xfer (preamble % 256) ::
      Event.wait :: Event.xfer 0 :: Event.xfer 0 :: Event.wait ::
      ((List.range n).flatMap (fun _ => [Event.xfer 0, Event.xfer 0]) ++
       [Event.gpioWrite c true])) := by
  refine ⟨[Event.wait],
    [Event.xfer ((preamble >>> 8) % 256), Event.xfer (preamble % 256),
     Event.wait, Event.xfer 0, Event.xfer 0, Event.wait] ++
      (List.range n).flatMap (fun _ => [Event.xfer 0, Event.xfer 0]),
    by simp, ?_, ?_⟩
  · intro e he
    simp only [List.mem_singleton] at he
    subst he
    exact ⟨rfl, rfl⟩
  · intro e he
    rcases List.mem_append.1 he with h | h
    · simp only [List.mem_cons, List.not_mem_nil, or_false] at h
      rcases h with rfl | rfl | rfl | rfl | rfl | rfl <;> rfl
    · rw [mem_dummy_bytes n e h]
      rfl

lemma write_trace_framed (c : Nat) (preamble : Nat) (ary : List Int) :
    csFramed c (Event.wait :: Event.gpioWrite c false ::
      Event.xfer ((preamble >>> 8) % 256) :: Event.xfer (preamble % 256) ::
      Event.wait ::
      (ary.flatMap (fun a => [Event.xfer (a.toNat >>> 8), Event.xfer (a.toNat % 256)]) ++
       [Event.gpioWrite c true])) := by
  refine ⟨[Event.wait],
    [Event.xfer ((preamble >>> 8) % 256), Event.xfer (preamble % 256), Event.wait] ++
      ary.flatMap (fun a => [Event.xfer (a.toNat >>> 8), Event.xfer (a.toNat % 256)]),
    by simp, ?_, ?_⟩
  · intro e he
    simp only [List.mem_singleton] at he
    subst he
    exact ⟨rfl, rfl⟩
  · intro e he
    rcases List.mem_append.1 he with h | h
    · simp only [List.mem_cons, List.not_mem_nil, or_false] at h
      rcases h with rfl | rfl | rfl <;> rfl
    · simp only [List.mem_flatMap, List.mem_cons, List.not_mem_nil, or_false] at h
      obtain ⟨a, _, rfl | rfl⟩ := h <;> rfl

lemma write_pixels_trace_framed (c : Nat) (pixbuf : List Nat) :
    csFramed c [Event.wait, Event.gpioWrite c false, Event.xfer 0, Event.xfer 0,
      Event.wait, Event.xfern pixbuf, Event.gpioWrite c true] := by
  refine ⟨[Event.wait],
    [Event.xfer 0, Event.xfer 0, Event.wait, Event.xfern pixbuf],
    by simp, ?_, ?_⟩
  · intro e he
    simp only [List.mem_singleton] at he
    subst he
    exact ⟨rfl, rfl⟩
  · intro e he
    simp only [List.mem_cons, List.not_mem_nil, or_false] at he
    rcases he with rfl | rfl | rfl | rfl <;> rfl

lemma mem_write_words : ∀ (buf : List Nat), ∀ e ∈ write_words buf, ∃ b, e = Event.xfer b
  | [], e, he => absurd he (List.not_mem_nil e)
  | w :: ws, e, he => by
    rw [write_words] at he
    rcases List.mem_cons.1 he with rfl | he2
    · exact ⟨_, rfl⟩
    · rcases List.mem_cons.1 he2 with rfl | he3
      · exact ⟨_, rfl⟩
      · exact mem_write_words ws e he3

lemma write_words_trace_framed (c : Nat) (preamble : Nat) (buf : List Nat) :
    csFramed c (Event.wait :: Event.gpioWrite c false ::
      Event.xfer ((preamble >>> 8) % 256) :: Event.xfer (preamble % 256) ::
      Event.wait :: (write_words buf ++ [Event.gpioWrite c true])) := by
  refine ⟨[Event.wait],
    [Event.xfer ((preamble >>> 8) % 256), Event.xfer (preamble % 256), Event.wait] ++
      write_words buf,
    by simp, ?_, ?_⟩
  · intro e he
    simp only [List.mem_singleton] at he
    subst he
    exact ⟨rfl, rfl⟩
  · intro e he
    rcases List.mem_append.1 he with h | h
    · simp only [List.mem_cons, List.not_mem_nil, or_false] at h
      rcases h with rfl | rfl | rfl <;> rfl
    · obtain ⟨b, rfl⟩ := mem_write_words buf e h
      rfl

lemma flatMap_pair_length (ary : List Int) :
    (ary.flatMap
      (fun a => [Event.xfer (a.toNat >>> 8), Event.xfer (a.toNat % 256)])).length =
      2 * ary.length := by
  induction ary with
  | nil => rfl
  | cons x xs ih =>
    simp only [List.flatMap_cons, List.length_append, List.length_cons, List.length_nil] at *
    omega

lemma packBE_length (ws : List Nat) : (packBE ws).length = 2 * ws.length := by
  induction ws with
  | nil => rfl
  | cons w t ih =>
    simp only [packBE, List.flatMap_cons, List.length_append, List.length_cons,
      List.length_nil] at *
    omega

lemma write_args_eq (cfg : Config) (args : List Int) :
    write_args cfg args =
      Except.map List.flatten (args.mapM (fun a => write cfg 0x0000 [a])) := by
  induction args with
  | nil => rfl
  | cons a rest ih =>
    rw [write_args, List.mapM_cons]
    cases hw : write cfg 0x0000 [a] with
    | error e => simp [write_data, hw, bind, Except.bind, Except.map]
    | ok t =>
      rw [ih]
      cases hrest : rest.mapM (fun a => write cfg 0x0000 [a]) with
      | error e => simp [write_data, hw, hrest, bind, Except.bind, Except.map, pure, Except.pure]
      | ok ts => simp [write_data, hw, hrest, bind, Except.bind, Except.map, pure, Except.pure]

lemma write_args_traces (hr c : Nat) (rst : Option Nat) :
    ∀ args : List Int, (∀ a ∈ args, 0 ≤ a ∧ a ≤ 65535) →
    ∃ ts : List (List Event),
      write_args ⟨some hr, some c, rst⟩ args = .ok ts.flatten ∧
      ts.length = args.length ∧ ∀ t ∈ ts, csFramed c t
  | [], _ => ⟨[], rfl, rfl, by simp⟩
  | x :: xs, h => by
    obtain ⟨ts, hts, hlen, hfr⟩ :=
      write_args_traces hr c rst xs (fun y hy => h y (by simp [hy]))
    have hx1 : ∀ y ∈ [x], 0 ≤ y ∧ y ≤ 65535 := by
      intro y hy
      simp only [List.mem_singleton] at hy
      subst hy
      exact h _ (by simp)
    refine ⟨(Event.wait :: Event.gpioWrite c false ::
        Event.xfer ((0 >>> 8) % 256) :: Event.xfer (0 % 256) :: Event.wait ::
        ([x].flatMap (fun y => [Event.xfer (y.toNat >>> 8), Event.xfer (y.toNat % 256)]) ++
         [Event.gpioWrite c true])) :: ts, ?_, by simp [hlen], ?_⟩
    · rw [write_args, write_data, write_eq hr c rst 0 [x] hx1, hts]
      simp [bind, Except.bind]
    · intro t ht
      rcases List.mem_cons.1 ht with rfl | ht2
      · exact write_trace_framed c 0 [x]
      · exact hfr t ht2

example : reset ⟨some 24, some 8, some 17⟩ =
    .ok [Event.gpioWrite 17 false, Event.sleepMs 100, Event.gpioWrite 17 true] := by rfl

example : read ⟨some 24, some 8, some 17⟩ (fun k => k) 0x1000 2 =
    .ok ([Event.wait, Event.gpioWrite 8 false, Event.xfer 0x10, Event.xfer 0,
          Event.wait, Event.xfer 0, Event.xfer 0, Event.wait,
          Event.xfer 0, Event.xfer 0, Event.xfer 0, Event.xfer 0,
          Event.gpioWrite 8 true], [4 <<< 8 ||| 5, 6 <<< 8 ||| 7]) := by rfl

example : write ⟨some 24, some 8, some 17⟩ 0x6000 [0x1234] =
    .ok [Event.wait, Event.gpioWrite 8 false, Event.xfer 0x60, Event.xfer 0,
         Event.wait, Event.xfer 0x12, Event.xfer 0x34, Event.gpioWrite 8 true] := by rfl

example : write ⟨some 24, some 8, some 17⟩ 0 [70000] = .error .overflowError := by rfl

example : wait_ready_loop 24 (fun k => decide (2 ≤ k)) 0 5 =
    some [Event.gpioRead 24 false, Event.gpioRead 24 false, Event.gpioRead 24 true] := by
  decide

/-! ### Claim theorems -/

/-- C1: for every preamble and every `count ≥ 0`, with the ready and
chip-select lines assigned, `read(preamble, count)` performs exactly the
sequence wait_ready, assert chip-select, preamble high byte then low
byte, wait_ready, two dummy zero bytes, wait_ready, then two zero-byte
transfers per word assembling the received bytes as
`(first <<< 8) ||| second`, deassert chip-select; it returns exactly
`count` words in the order received, and with `count = 0` it returns the
empty sequence while still performing the full preamble and dummy-byte
exchange. -/
theorem read_correct (hr c : Nat) (rst : Option Nat) (recv : Nat → Nat)
    (preamble n : Nat) :
    read ⟨some hr, some c, rst⟩ recv preamble n =
      .ok (Event.wait :: Event.gpioWrite c false ::
             Event.xfer ((preamble >>> 8) % 256) :: Event.xfer (preamble % 256) ::
             Event.wait :: Event.xfer 0 :: Event.xfer 0 :: Event.wait ::
             ((List.range n).flatMap (fun _ => [Event.xfer 0, Event.xfer 0]) ++
              [Event.gpioWrite c true]),
           (List.range n).map
             (fun i => ((recv (4 + 2 * i)) % 256) <<< 8 ||| (recv (5 + 2 * i) % 256))) ∧
    ((List.range n).map
       (fun i => ((recv (4 + 2 * i)) % 256) <<< 8 ||| (recv (5 + 2 * i) % 256))).length = n ∧
    read ⟨some hr, some c, rst⟩ recv preamble 0 =
      .ok ([Event.wait, Event.gpioWrite c false, Event.xfer ((preamble >>> 8) % 256),
            Event.xfer (preamble % 256), Event.wait, Event.xfer 0, Event.xfer 0,
            Event.wait, Event.gpioWrite c true], []) := by
  refine ⟨read_eq hr c rst recv preamble n, by simp, ?_⟩
  rw [read_eq hr c rst recv preamble 0]
  simp

/-- C2: for every preamble and every sequence of 16-bit words (in
particular every non-empty one), with the ready and chip-select lines
assigned, `write(preamble, words)` performs wait_ready, assert
chip-select, preamble high byte then low byte, wait_ready, then each
word as exactly two byte transfers high byte first in input order, and
deasserts chip-select immediately after the last byte; the payload is
exactly two bytes per word. -/
theorem write_correct (hr c : Nat) (rst : Option Nat) (preamble : Nat)
    (ary : List Int) (h : ∀ a ∈ ary, 0 ≤ a ∧ a ≤ 65535) :
    write ⟨some hr, some c, rst⟩ preamble ary =
      .ok (Event.wait :: Event.gpioWrite c false ::
             Event.xfer ((preamble >>> 8) % 256) :: Event.xfer (preamble % 256) ::
             Event.wait ::
             (ary.flatMap
                (fun a => [Event.xfer (a.toNat >>> 8), Event.xfer (a.toNat % 256)]) ++
              [Event.gpioWrite c true])) ∧
    (ary.flatMap
      (fun a => [Event.xfer (a.toNat >>> 8), Event.xfer (a.toNat % 256)])).length =
      2 * ary.length :=
  ⟨write_eq hr c rst preamble ary h, flatMap_pair_length ary⟩

/-- C2 witness: `write(0x6000, [0x1234])` on the default pin assignment. -/
theorem write_correct_witness :
    write ⟨some 24, some 8, some 17⟩ 0x6000 [0x1234] =
      .ok [Event.wait, Event.gpioWrite 8 false, Event.xfer 0x60, Event.xfer 0,
           Event.wait, Event.xfer 0x12, Event.xfer 0x34, Event.gpioWrite 8 true] := by
  rw [(write_correct 24 8 (some 17) 0x6000 [0x1234] (by decide)).1]
  rfl

/-- C3: for every transfer operation (`read`, `write`, `write_pixels`)
and every payload length including zero, the emitted trace is a single
chip-select session: chip-select is asserted before any payload byte and
deasserted immediately after the last event, with no other chip-select
write in between. -/
theorem cs_one_session (hr c : Nat) (rst : Option Nat) (recv : Nat → Nat)
    (preamble n : Nat) (ary : List Int) (pixbuf : List Nat) :
    (∀ tr ws, read ⟨some hr, some c, rst⟩ recv preamble n = .ok (tr, ws) →
      csFramed c tr) ∧
    (∀ tr, write ⟨some hr, some c, rst⟩ preamble ary = .ok tr → csFramed c tr) ∧
    (∀ tr, write_pixels ⟨some hr, some c, rst⟩ pixbuf = .ok tr → csFramed c tr) := by
  refine ⟨?_, ?_, ?_⟩
  · intro tr ws htr
    rw [read_eq hr c rst recv preamble n] at htr
    simp only [Except.ok.injEq, Prod.mk.injEq] at htr
    obtain ⟨rfl, rfl⟩ := htr
    exact read_trace_framed c preamble n
  · intro tr htr
    cases hbuf : toUShort ary with
    | error e => simp [write, hbuf, bind, Except.bind] at htr
    | ok buf =>
      simp only [write, hbuf, wait_ready, write_cs, bind, Except.bind,
        List.cons_append, List.nil_append, Except.ok.injEq] at htr
      subst htr
      exact write_words_trace_framed c preamble buf
  · intro tr htr
    rw [write_pixels_eq hr c rst pixbuf] at htr
    simp only [Except.ok.injEq] at htr
    subst htr
    exact write_pixels_trace_framed c pixbuf

/-- C3 witness: the trace of `read(0x1000, 1)` on the default pin
assignment is a single chip-select session. -/
theorem cs_one_session_witness :
    csFramed 8 [Event.wait, Event.gpioWrite 8 false, Event.xfer 0x10, Event.xfer 0,
      Event.wait, Event.xfer 0, Event.xfer 0, Event.wait,
      Event.xfer 0, Event.xfer 0, Event.gpioWrite 8 true] :=
  (cs_one_session 24 8 (some 17) (fun _ => 0) 0x1000 1 [3] [9]).1
    [Event.wait, Event.gpioWrite 8 false, Event.xfer 0x10, Event.xfer 0,
      Event.wait, Event.xfer 0, Event.xfer 0, Event.wait,
      Event.xfer 0, Event.xfer 0, Event.gpioWrite 8 true] [0] (by rfl)

/-- C4: for every input buffer (length zero included), `write_pixels`
performs exactly one chip-select session — wait_ready, assert
chip-select, preamble `0x0000`, wait_ready, a single bulk-transfer call,
deassert chip-select — and the byte payload handed to the bulk-transfer
primitive is exactly the input buffer; in particular, on the packed
big-endian encoding `packBE ws` of a word list, the bulk payload equals
that encoding (two bytes per word, most-significant first). -/
theorem write_pixels_correct (hr c : Nat) (rst : Option Nat) (buf ws : List Nat) :
    write_pixels ⟨some hr, some c, rst⟩ buf =
      .ok [Event.wait, Event.gpioWrite c false, Event.xfer 0, Event.xfer 0,
           Event.wait, Event.xfern buf, Event.gpioWrite c true] ∧
    csFramed c [Event.wait, Event.gpioWrite c false, Event.xfer 0, Event.xfer 0,
      Event.wait, Event.xfern buf, Event.gpioWrite c true] ∧
    ([Event.wait, Event.gpioWrite c false, Event.xfer 0, Event.xfer 0,
      Event.wait, Event.xfern buf, Event.gpioWrite c true].countP isBulk = 1) ∧
    write_pixels ⟨some hr, some c, rst⟩ (packBE ws) =
      .ok [Event.wait, Event.gpioWrite c false, Event.xfer 0, Event.xfer 0,
           Event.wait, Event.xfern (packBE ws), Event.gpioWrite c true] ∧
    (packBE ws).length = 2 * ws.length := by
  refine ⟨write_pixels_eq hr c rst buf, write_pixels_trace_framed c buf, ?_,
    write_pixels_eq hr c rst (packBE ws), packBE_length ws⟩
  simp [isBulk, List.countP_cons]

/-- C5: `write_cmd(code, args...)` is observably equivalent to writing
`[code]` under preamble `0x6000` and then each argument separately under
preamble `0x0000`; with the lines assigned and in-range words, its trace
decomposes into `1 + args.length` chip-select sessions, one per
constituent write. -/
theorem write_cmd_equiv (cfg : Config) (hr c : Nat) (rst : Option Nat)
    (cmd : Int) (args : List Int)
    (hc : 0 ≤ cmd ∧ cmd ≤ 65535) (ha : ∀ a ∈ args, 0 ≤ a ∧ a ≤ 65535) :
    write_cmd cfg cmd args = write_cmd_spec cfg cmd args ∧
    ∃ t0 ts, write_cmd ⟨some hr, some c, rst⟩ cmd args = .ok (t0 ++ List.flatten ts) ∧
      csFramed c t0 ∧ ts.length = args.length ∧ ∀ t ∈ ts, csFramed c t := by
  constructor
  · simp only [write_cmd, write_cmd_spec, write_args_eq, bind, Except.bind]
    cases hw : write cfg 0x6000 [cmd] with
    | error e => rfl
    | ok t =>
      cases hm : args.mapM (fun a => write cfg 0x0000 [a]) with
      | error e => rfl
      | ok ts => rfl
  · obtain ⟨ts, hts, hlen, hfr⟩ := write_args_traces hr c rst args ha
    have hc1 : ∀ y ∈ [cmd], 0 ≤ y ∧ y ≤ 65535 := by
      intro y hy
      simp only [List.mem_singleton] at hy
      subst hy
      exact hc
    refine ⟨Event.wait :: Event.gpioWrite c false ::
        Event.xfer ((0x6000 >>> 8) % 256) :: Event.xfer (0x6000 % 256) :: Event.wait ::
        ([cmd].flatMap
           (fun a => [Event.xfer (a.toNat >>> 8), Event.xfer (a.toNat % 256)]) ++
         [Event.gpioWrite c true]), ts, ?_, write_trace_framed c 0x6000 [cmd], hlen, hfr⟩
    rw [write_cmd, write_eq hr c rst 0x6000 [cmd] hc1, hts]
    simp [bind, Except.bind]

/-- C5 witness: `write_cmd` with command `1` and arguments `[2, 3]` on
the default pin assignment. -/
theorem write_cmd_equiv_witness :
    write_cmd ⟨some 24, some 8, some 17⟩ 1 [2, 3] =
      write_cmd_spec ⟨some 24, some 8, some 17⟩ 1 [2, 3] ∧
    ∃ t0 ts, write_cmd ⟨some 24, some 8, some 17⟩ 1 [2, 3] = .ok (t0 ++ List.flatten ts) ∧
      csFramed 8 t0 ∧ ts.length = 2 ∧ ∀ t ∈ ts, csFramed 8 t :=
  write_cmd_equiv ⟨some 24, some 8, some 17⟩ 24 8 (some 17) 1 [2, 3]
    (by decide) (by decide)

/-- C6: calling `reset` with no reset line assigned, or `wait_ready`
with no ready line assigned (at the trace level and at the poll level),
fails with the configuration error, and the failing result carries no
events: no line toggles, pin reads, or byte transfers happen before the
failure. -/
theorem missing_line_config_error (hr c rst : Option Nat) (ready : Nat → Bool)
    (fuel : Nat) :
    reset ⟨hr, c, none⟩ = .error .configError ∧
    wait_ready ⟨none, c, rst⟩ = .error .configError ∧
    wait_ready_run ⟨none, c, rst⟩ ready fuel = .error .configError :=
  ⟨rfl, rfl, rfl⟩

/-- C7: with the reset line assigned, `reset` drives the reset pin low,
sleeps a fixed 100 ms, drives it high, and touches no other control
line. -/
theorem reset_pulse (hr c : Option Nat) (r : Nat) :
    reset ⟨hr, c, some r⟩ =
      .ok [Event.gpioWrite r false, Event.sleepMs 100, Event.gpioWrite r true] ∧
    touchesOnlyPin r
      [Event.gpioWrite r false, Event.sleepMs 100, Event.gpioWrite r true] = true := by
  refine ⟨rfl, ?_⟩
  simp [touchesOnlyPin]

/-- C8: `read_int` returns exactly the single element of
`read_data(1)`, which always has length one; it can fail with the
empty-response index error only if the transport returned fewer than one
element, which never happens, so `read_int` never raises it. -/
theorem read_int_correct (hr c : Nat) (rst : Option Nat) (recv : Nat → Nat) :
    (∀ tr ws, read_data ⟨some hr, some c, rst⟩ recv 1 = .ok (tr, ws) →
      ws.length = 1 ∧ read_int ⟨some hr, some c, rst⟩ recv = .ok (tr, ws.headI)) ∧
    read_int ⟨some hr, some c, rst⟩ recv ≠ .error .indexError := by
  have hrd : read_data ⟨some hr, some c, rst⟩ recv 1 =
      .ok (Event.wait :: Event.gpioWrite c false ::
             Event.xfer ((0x1000 >>> 8) % 256) :: Event.xfer (0x1000 % 256) ::
             Event.wait :: Event.xfer 0 :: Event.xfer 0 :: Event.wait ::
             ((List.range 1).flatMap (fun _ => [Event.xfer 0, Event.xfer 0]) ++
              [Event.gpioWrite c true]),
           (List.range 1).map
             (fun i => ((recv (4 + 2 * i)) % 256) <<< 8 ||| (recv (5 + 2 * i) % 256))) :=
    read_eq hr c rst recv 0x1000 1
  have hint : read_int ⟨some hr, some c, rst⟩ recv =
      .ok (Event.wait :: Event.gpioWrite c false ::
             Event.xfer ((0x1000 >>> 8) % 256) :: Event.xfer (0x1000 % 256) ::
             Event.wait :: Event.xfer 0 :: Event.xfer 0 :: Event.wait ::
             ((List.range 1).flatMap (fun _ => [Event.xfer 0, Event.xfer 0]) ++
              [Event.gpioWrite c true]),
           ((recv 4) % 256) <<< 8 ||| (recv 5 % 256)) := by
    rw [read_int, hrd]
    simp [bind, Except.bind, List.range_succ]
  constructor
  · intro tr ws htr
    rw [hrd] at htr
    simp only [Except.ok.injEq, Prod.mk.injEq] at htr
    obtain ⟨rfl, rfl⟩ := htr
    refine ⟨by simp, ?_⟩
    rw [hint]
    simp [List.range_succ]
  · rw [hint]
    simp

/-- C8 witness: `read_int` on the default pin assignment with an
all-zero bus. -/
theorem read_int_correct_witness :
    ([(0 : Nat)].length = 1) ∧
    read_int ⟨some 24, some 8, some 17⟩ (fun _ => 0) =
      .ok ([Event.wait, Event.gpioWrite 8 false, Event.xfer 0x10, Event.xfer 0,
            Event.wait, Event.xfer 0, Event.xfer 0, Event.wait,
            Event.xfer 0, Event.xfer 0, Event.gpioWrite 8 true], 0) :=
  (read_int_correct 24 8 (some 17) (fun _ => 0)).1
    [Event.wait, Event.gpioWrite 8 false, Event.xfer 0x10, Event.xfer 0,
      Event.wait, Event.xfer 0, Event.xfer 0, Event.wait,
      Event.xfer 0, Event.xfer 0, Event.gpioWrite 8 true] [0] (by rfl)

/-- C9: the ready busy-wait polls the ready input in a tight loop
performing nothing but pin reads (no sleeps, no output changes),
returning as soon as the input reads high — after exactly `N + 1` polls
when the first high poll is poll `N`, hence immediately when already
high — and for a trace on which the input never reads high the loop
never returns, for any amount of fuel (there is no timeout). -/
theorem wait_ready_polling (pin N : Nat) (ready : Nat → Bool)
    (hlow : ∀ k, k < N → ready k = false) (hN : ready N = true) :
    (∀ fuel, N < fuel → wait_ready_loop pin ready 0 fuel =
        some (List.replicate N (Event.gpioRead pin false) ++ [Event.gpioRead pin true])) ∧
    pollsOnly pin
      (List.replicate N (Event.gpioRead pin false) ++ [Event.gpioRead pin true]) = true ∧
    (List.replicate N (Event.gpioRead pin false) ++ [Event.gpioRead pin true]).length =
      N + 1 ∧
    (∀ r2 : Nat → Bool, (∀ k, r2 k = false) →
      ∀ fuel, wait_ready_loop pin r2 0 fuel = none) := by
  refine ⟨?_, ?_, by simp, ?_⟩
  · intro fuel hfuel
    exact wait_ready_loop_terminates pin ready N 0 fuel
      (fun j hj => by simpa using hlow j hj) (by simpa using hN) hfuel
  · simp only [pollsOnly, List.all_append, List.all_eq_true, Bool.and_eq_true]
    constructor
    · intro e he
      rw [List.eq_of_mem_replicate he]
      simp
    · intro e he
      simp only [List.mem_singleton] at he
      subst he
      simp
  · intro r2 h2 fuel
    exact wait_ready_loop_diverges pin r2 h2 fuel 0

/-- C9 witness: a ready line that goes high on the third poll. -/
theorem wait_ready_polling_witness :
    wait_ready_loop 24 (fun k => decide (2 ≤ k)) 0 5 =
      some (List.replicate 2 (Event.gpioRead 24 false) ++ [Event.gpioRead 24 true]) :=
  (wait_ready_polling 24 2 (fun k => decide (2 ≤ k))
    (fun k hk => by simp; omega) (by decide)).1 5 (by omega)

/-- C10: a `write` (hence also `write_data`) whose input list contains
an element outside `[0, 65535]` fails during the input conversion with
the overflow error, for every configuration (even one with no lines
assigned), and the failing result carries no events: no busy-wait,
chip-select change, or byte transfer happens. -/
theorem write_rejects_out_of_range (cfg : Config) (preamble : Nat) (ary : List Int)
    (h : ¬ ∀ a ∈ ary, 0 ≤ a ∧ a ≤ 65535) :
    write cfg preamble ary = .error .overflowError ∧
    write_data cfg ary = .error .overflowError := by
  have ht := toUShort_err ary h
  constructor
  · simp [write, ht, bind, Except.bind]
  · simp [write_data, write, ht, bind, Except.bind]

/-- C10 witness: writing `[-1]` with no lines assigned. -/
theorem write_rejects_out_of_range_witness :
    write ⟨none, none, none⟩ 0 [-1] = .error .overflowError ∧
    write_data ⟨none, none, none⟩ [-1] = .error .overflowError :=
  write_rejects_out_of_range ⟨none, none, none⟩ 0 [-1] (by decide)

end SPI
